import Mathlib

/-!
Shallow embedding of `src/scripts/extract.py` (the `run` function): batched
inference orchestration, layer-index resolution, per-sequence representation
extraction (per_tok, avg_per_tok, mean, bos, contacts), label splitting and
the batch-index window.  Activation values are modelled as rationals; a
feature vector is a function from the feature index to ℚ, and the position
axis of a tensor row is a list of feature vectors (Python slicing clamps at
the end of a list, which `List.drop`/`List.take` reproduce).
-/

/-- A feature vector: feature index → value. -/
abbrev Fvec := ℕ → ℚ

/-- Which representation kinds were requested (`--include`, line 46-52). -/
structure IncludeSet where
  per_tok : Bool
  avg_per_tok : Bool
  mean : Bool
  bos : Bool
  contacts : Bool

/-- The configuration surface of `run` that the extraction loop reads. -/
structure Args where
  repr_layers : List ℤ
  incl : IncludeSet
  truncation_seq_length : ℕ

/-- One sequence of a batch: its raw FASTA label, its residue string, its
activation row per layer (`t[i]` for the layer's batch tensor) and its row of
the batch contact map (`contacts[i]`). -/
structure SeqData where
  label : List Char
  str : List Char
  rows : ℤ → List Fvec
  cmap : List (List ℚ)

/-- The result bundle written for one sequence (lines 115-141): each field is
present exactly when the corresponding kind was requested. -/
structure Result where
  id : List Char
  label : List Char
  representations : Option (List (ℤ × List Fvec))
  avg_per_tok : Option (List Fvec)
  mean_representations : Option (List (ℤ × Fvec))
  bos_representations : Option (List (ℤ × Fvec))
  contacts : Option (List (List ℚ))

/-- Line 86: `(i + model.num_layers + 1) % (model.num_layers + 1)`.
Python `%` with a positive modulus returns a value in `[0, modulus)`, as does
`Int.emod`. -/
def resolveLayer (numLayers : ℕ) (i : ℤ) : ℤ :=
  (i + numLayers + 1) % (numLayers + 1)

/-- Line 86: the resolved layer list (kept with multiplicity; its length is
the `len(repr_layers)` used at line 129). -/
def resolvedLayers (numLayers : ℕ) (a : Args) : List ℤ :=
  a.repr_layers.map (resolveLayer numLayers)

/-- The keys of the `representations` dict returned by the model (line 102):
one entry per distinct resolved layer. -/
def reprKeys (numLayers : ℕ) (a : Args) : List ℤ :=
  (resolvedLayers numLayers a).dedup

/-- Line 116: `truncate_len = min(args.truncation_seq_length, len(strs[i]))`. -/
def truncLenOf (a : Args) (s : SeqData) : ℕ :=
  min a.truncation_seq_length s.str.length

/-- Lines 121/126/133: `t[i, 1 : truncate_len + 1]` on the position axis. -/
def perTokSlice (row : List Fvec) (t : ℕ) : List Fvec :=
  (row.drop 1).take t

/-- Line 129: `torch.stack([...]).sum(dim=0)` — pointwise sum over the layer
axis of a stack of equally-shaped slices; the result has the shape of the
first slice. -/
def stackSum (slices : List (List Fvec)) : List Fvec :=
  (List.range slices.headI.length).map
    (fun k => fun j => (slices.map (fun s => (s.getD k (fun _ => 0)) j)).sum)

/-- Line 133: `.mean(0)` — the mean over the position axis. -/
def posMean (vs : List Fvec) : Fvec :=
  fun j => ((vs.map (fun v => v j)).sum) / vs.length

/-- Line 141: `contacts[i, : truncate_len, : truncate_len]`. -/
def subContacts (cmap : List (List ℚ)) (t : ℕ) : List (List ℚ) :=
  (cmap.take t).map (fun row => row.take t)

/-- Modelled from the spec: the "full content-only contact map" of a sequence
of true length `L` — the contact map restricted to content positions
`[0, L) × [0, L)`, with no marker or padding rows/columns. -/
def contentOnlyMap (cmap : List (List ℚ)) (L : ℕ) : List (List ℚ) :=
  (cmap.take L).map (fun row => row.take L)

/-- Modelled from the spec: the elementwise mean, over all requested layers,
of the per_tok slices — the per-layer slices summed pointwise and divided by
the number of slices. -/
def specAvgPerTok (slices : List (List Fvec)) : List Fvec :=
  (List.range slices.headI.length).map
    (fun k => fun j => ((slices.map (fun s => (s.getD k (fun _ => 0)) j)).sum) / slices.length)

/-- Python `label.split(" ")` (line 112): split on every single occurrence of
the separator character; `"".split(" ") == [""]` and consecutive separators
produce empty parts. -/
def splitOnChar (c : Char) : List Char → List (List Char)
  | [] => [[]]
  | a :: rest =>
    match splitOnChar c rest with
    | [] => [[]]
    | g :: gs => if a = c then [] :: g :: gs else (a :: g) :: gs

/-- Line 113: the stem of the output path, `f"{id}_{label}"`. -/
def outputStem (r : Result) : List Char :=
  r.id ++ '_' :: r.label

/-- Lines 111-141: per-sequence extraction. `id, label = label.split(" ")`
raises `ValueError` unless the split yields exactly two parts; otherwise the
result bundle is assembled from the requested kinds. -/
def processSeq (numLayers : ℕ) (a : Args) (s : SeqData) : Except String Result :=
  match splitOnChar ' ' s.label with
  | [idPart, labelPart] =>
    let keys := reprKeys numLayers a
    let nLayers := (resolvedLayers numLayers a).length
    let t := min a.truncation_seq_length s.str.length
    .ok {
      id := idPart
      label := labelPart
      representations :=
        if a.incl.per_tok then
          some (keys.map (fun l => (l, perTokSlice (s.rows l) t)))
        else none
      avg_per_tok :=
        if a.incl.avg_per_tok then
          some ((stackSum (keys.map (fun l => perTokSlice (s.rows l) t))).map
            (fun v => fun j => v j / (nLayers : ℚ)))
        else none
      mean_representations :=
        if a.incl.mean then
          some (keys.map (fun l => (l, posMean (perTokSlice (s.rows l) t))))
        else none
      bos_representations :=
        if a.incl.bos then
          some (keys.map (fun l => (l, (s.rows l).getD 0 (fun _ => 0))))
        else none
      contacts :=
        if a.incl.contacts then some (subContacts s.cmap t) else none }
  | _ => .error "ValueError: not enough values to unpack"

/-- Lines 111-146: the sequences of one batch in order; artifacts written
before a failing sequence remain written, the failure aborts the rest. -/
def processSeqs (numLayers : ℕ) (a : Args) : List SeqData → List Result × Option String
  | [] => ([], none)
  | s :: rest =>
    match processSeq numLayers a s with
    | .error e => ([], some e)
    | .ok r =>
      match processSeqs numLayers a rest with
      | (rs, e) => (r :: rs, e)

/-- Line 88: `start_batch = 000`. -/
def start_batch : ℕ := 0

/-- Line 89: `end_batch = 1200`. -/
def end_batch : ℕ := 1200

/-- Lines 91-146: the enumerated batch loop from index `idx` on, with the
batch-index window guard of line 92: a batch is processed when
`lo <= batch_idx and batch_idx < hi`, and skipped otherwise. -/
def processFrom (numLayers : ℕ) (a : Args) (lo hi : ℕ) :
    ℕ → List (List SeqData) → List Result × Option String
  | _, [] => ([], none)
  | idx, b :: rest =>
    if lo ≤ idx ∧ idx < hi then
      match processSeqs numLayers a b with
      | (rs, some e) => (rs, some e)
      | (rs, none) =>
        match processFrom numLayers a lo hi (idx + 1) rest with
        | (rs2, e) => (rs ++ rs2, e)
    else processFrom numLayers a lo hi (idx + 1) rest

/-- Lines 85-146 with the window bounds as parameters: the layer-range
assertion of line 85 (an `AssertionError` aborts the run before the loop),
then the windowed batch loop. -/
def runWindow (numLayers : ℕ) (a : Args) (lo hi : ℕ)
    (batches : List (List SeqData)) : List Result × Option String :=
  if a.repr_layers.all (fun i => decide (-((numLayers : ℤ) + 1) ≤ i ∧ i ≤ (numLayers : ℤ))) then
    processFrom numLayers a lo hi 0 batches
  else ([], some "AssertionError")

/-- The `run` loop as written, with the constants of lines 88-89. -/
def runExtract (numLayers : ℕ) (a : Args) (batches : List (List SeqData)) :
    List Result × Option String :=
  runWindow numLayers a start_batch end_batch batches

/-- `stemOf` reads the output-path stem off a per-sequence outcome. -/
def stemOf : Except String Result → List Char
  | .ok r => outputStem r
  | .error _ => []

/-- Constant-zero feature vector (used as a default in concrete instances). -/
def fv0 : Fvec := fun _ => 0

/-- Constant-one feature vector. -/
def fv1 : Fvec := fun _ => 1

/-- Concrete instance data: all kinds requested. -/
def inclAll : IncludeSet :=
  { per_tok := true, avg_per_tok := true, mean := true, bos := true, contacts := true }

/-- Concrete instance data: final layer of a 1-layer model, truncation 2. -/
def argsW : Args :=
  { repr_layers := [-1], incl := inclAll, truncation_seq_length := 2 }

/-- Concrete instance data: a length-1 sequence with a well-formed label and
padded rows of length 3 (marker, content, trailing marker). -/
def seqW : SeqData :=
  { label := ['p', ' ', '1']
    str := ['A']
    rows := fun _ => [fv0, fv1, fv0]
    cmap := [[1, 2], [3, 4]] }

/-- The all-absent result bundle, used as a `getD` default. -/
def emptyResult : Result :=
  { id := [], label := [], representations := none, avg_per_tok := none,
    mean_representations := none, bos_representations := none, contacts := none }

/-- The bundle the code produces on `argsW`/`seqW`. -/
def resW : Result := (processSeq 1 argsW seqW).toOption.getD emptyResult

/-- `argsW` with a different truncation length. -/
def argsW5 : Args := { argsW with truncation_seq_length := 5 }

/-- The bundle the code produces on `argsW5`/`seqW`. -/
def resW5 : Result := (processSeq 1 argsW5 seqW).toOption.getD emptyResult

/-- Two requested indices of a 2-layer model that both resolve to layer 2:
`-1` and `2`. -/
def argsCex : Args :=
  { repr_layers := [-1, 2]
    incl := { per_tok := false, avg_per_tok := true, mean := false, bos := false,
              contacts := false }
    truncation_seq_length := 10 }

/-- A length-1 sequence whose content-position activation is the constant-one
vector on every layer. -/
def seqCex : SeqData :=
  { label := ['p', ' ', '1'], str := ['A'], rows := fun _ => [fv0, fv1, fv0], cmap := [] }

/-- The bundle the code produces on `argsCex`/`seqCex`. -/
def resCex : Result := (processSeq 2 argsCex seqCex).toOption.getD emptyResult

/-- Concrete second and third sequences for a 3-batch run. -/
def seqW2 : SeqData := { seqW with label := ['q', ' ', '2'] }

def seqW3 : SeqData := { seqW with label := ['r', ' ', '3'] }

/-- A concrete 3-batch run, one sequence per batch. -/
def batchesW : List (List SeqData) := [[seqW], [seqW2], [seqW3]]

/-- A request with a layer index outside `[-(numLayers+1), numLayers]` for a
1-layer model. -/
def argsBad : Args := { argsW with repr_layers := [5] }

theorem splitOnChar_ne_nil (c : Char) (l : List Char) : splitOnChar c l ≠ [] := by
  induction l with
  | nil => simp [splitOnChar]
  | cons a rest ih =>
    unfold splitOnChar
    cases h : splitOnChar c rest with
    | nil => exact absurd h ih
    | cons g gs => by_cases hac : a = c <;> simp [hac]

theorem length_splitOnChar (c : Char) (l : List Char) :
    (splitOnChar c l).length = l.count c + 1 := by
  induction l with
  | nil => simp [splitOnChar]
  | cons a rest ih =>
    unfold splitOnChar
    cases h : splitOnChar c rest with
    | nil => exact absurd h (splitOnChar_ne_nil c rest)
    | cons g gs =>
      rw [h] at ih
      by_cases hac : a = c
      · subst hac
        simp only [List.count_cons, beq_self_eq_true, if_pos, if_true] at ih ⊢
        simp at ih ⊢
        omega
      · have hbeq : ¬ ((a == c) = true) := by simp [hac]
        simp only [List.count_cons] at ih ⊢
        simp [hac, hbeq] at ih ⊢
        omega

theorem splitOnChar_of_count_eq_zero (c : Char) (l : List Char) (h : l.count c = 0) :
    splitOnChar c l = [l] := by
  induction l with
  | nil => simp [splitOnChar]
  | cons a rest ih =>
    simp only [List.count_cons] at h
    have hac : ¬ (a = c) := by
      intro hh
      subst hh
      simp at h
    have hrest : rest.count c = 0 := by
      by_cases hb : (a == c) = true
      · exact absurd (beq_iff_eq.mp hb) hac
      · simpa [hb] using h
    unfold splitOnChar
    rw [ih hrest]
    simp [hac]

theorem splitOnChar_cons (c a : Char) (rest : List Char) :
    splitOnChar c (a :: rest) =
      match splitOnChar c rest with
      | [] => [[]]
      | g :: gs => if a = c then [] :: g :: gs else (a :: g) :: gs := rfl

theorem splitOnChar_append (c : Char) (xs ys : List Char) (h : xs.count c = 0) :
    splitOnChar c (xs ++ c :: ys) = xs :: splitOnChar c ys := by
  induction xs with
  | nil =>
    simp only [List.nil_append]
    rw [splitOnChar_cons]
    cases hy : splitOnChar c ys with
    | nil => exact absurd hy (splitOnChar_ne_nil c ys)
    | cons g gs => simp
  | cons a rest ih =>
    simp only [List.count_cons] at h
    have hac : ¬ (a = c) := by
      intro hh
      subst hh
      simp at h
    have hrest : rest.count c = 0 := by
      by_cases hb : (a == c) = true
      · exact absurd (beq_iff_eq.mp hb) hac
      · simpa [hb] using h
    simp only [List.cons_append]
    rw [splitOnChar_cons, ih hrest]
    simp [hac]

/-- Every `.ok` outcome of `processSeq` carries exactly the fields that the
extraction branches of lines 119-141 produce. -/
theorem processSeq_ok_fields (numLayers : ℕ) (a : Args) (s : SeqData) (r : Result)
    (hok : processSeq numLayers a s = .ok r) :
    r.representations = (if a.incl.per_tok then
        some ((reprKeys numLayers a).map (fun l => (l, perTokSlice (s.rows l) (truncLenOf a s))))
      else none) ∧
    r.avg_per_tok = (if a.incl.avg_per_tok then
        some ((stackSum ((reprKeys numLayers a).map
            (fun l => perTokSlice (s.rows l) (truncLenOf a s)))).map
          (fun v => fun j => v j / ((resolvedLayers numLayers a).length : ℚ)))
      else none) ∧
    r.mean_representations = (if a.incl.mean then
        some ((reprKeys numLayers a).map
          (fun l => (l, posMean (perTokSlice (s.rows l) (truncLenOf a s)))))
      else none) ∧
    r.bos_representations = (if a.incl.bos then
        some ((reprKeys numLayers a).map (fun l => (l, (s.rows l).getD 0 (fun _ => 0))))
      else none) ∧
    r.contacts = (if a.incl.contacts then some (subContacts s.cmap (truncLenOf a s)) else none) := by
  unfold processSeq at hok
  rcases hsp : splitOnChar ' ' s.label with _ | ⟨g, _ | ⟨g2, _ | ⟨g3, gs⟩⟩⟩ <;> rw [hsp] at hok
  · simp at hok
  · simp at hok
  · rw [Except.ok.injEq] at hok
    subst hok
    refine ⟨rfl, rfl, rfl, rfl, rfl⟩
  · simp at hok

/-- C4: for every requested layer index `i` in `[-(numLayers+1), numLayers]`,
the resolved index equals `(i + numLayers + 1) mod (numLayers + 1)`, lies in
`[0, numLayers]`, and `resolve i = resolve (i - (numLayers+1))`; with
`numLayers = 33`, `resolve (-1) = 33` and `resolve 0 = 0`. -/
theorem resolveLayer_spec (numLayers : ℕ) (i : ℤ)
    (hlo : -((numLayers : ℤ) + 1) ≤ i) (hhi : i ≤ (numLayers : ℤ)) :
    resolveLayer numLayers i = (i + numLayers + 1) % ((numLayers : ℤ) + 1) ∧
    0 ≤ resolveLayer numLayers i ∧
    resolveLayer numLayers i ≤ (numLayers : ℤ) ∧
    resolveLayer numLayers i = resolveLayer numLayers (i - ((numLayers : ℤ) + 1)) ∧
    resolveLayer 33 (-1) = 33 ∧ resolveLayer 33 0 = 0 := by
  have hmodpos : (0 : ℤ) < (numLayers : ℤ) + 1 := by positivity
  refine ⟨by simp [resolveLayer, add_assoc], ?_, ?_, ?_, by decide, by decide⟩
  · exact Int.emod_nonneg _ (by positivity)
  · have h := Int.emod_lt_of_pos (i + numLayers + 1) hmodpos
    unfold resolveLayer
    omega
  · unfold resolveLayer
    have : i - ((numLayers : ℤ) + 1) + numLayers + 1 = i + numLayers + 1 - ((numLayers : ℤ) + 1) := by
      ring
    rw [this, Int.emod_sub_cancel]

/-- Witness for `resolveLayer_spec` at `numLayers = 33`, `i = -1`. -/
theorem resolveLayer_spec_witness :
    resolveLayer 33 (-1) = ((-1 : ℤ) + 33 + 1) % ((33 : ℤ) + 1) ∧
    0 ≤ resolveLayer 33 (-1) ∧
    resolveLayer 33 (-1) ≤ (33 : ℤ) ∧
    resolveLayer 33 (-1) = resolveLayer 33 ((-1 : ℤ) - ((33 : ℤ) + 1)) ∧
    resolveLayer 33 (-1) = 33 ∧ resolveLayer 33 0 = 0 := by
  have h := resolveLayer_spec 33 (-1) (by decide) (by decide)
  exact ⟨h.1, h.2.1, h.2.2.1, h.2.2.2.1, h.2.2.2.2⟩

theorem lookup_map_key {β : Type} (f : ℤ → β) (keys : List ℤ) (l : ℤ) (h : l ∈ keys) :
    (keys.map (fun k => (k, f k))).lookup l = some (f l) := by
  induction keys with
  | nil => cases h
  | cons k ks ih =>
    rcases List.mem_cons.mp h with hk | hk
    · subst hk
      simp [List.lookup]
    · by_cases he : l = k
      · subst he
        simp [List.lookup]
      · have : ¬ ((l == k) = true) := by simp [he]
        simp only [List.map_cons, List.lookup, this, if_neg]
        simpa using ih hk

theorem perTokSlice_length (row : List Fvec) (t : ℕ) (h : t + 1 ≤ row.length) :
    (perTokSlice row t).length = t := by
  simp only [perTokSlice, List.length_take, List.length_drop]
  omega

/-- C10: the per-sequence output step splits the label on the space character
into an identifier part and a label part; it succeeds exactly when the label
holds exactly one space, and then the output path stem is the identifier and
the label joined by an underscore. -/
theorem label_split_spec (numLayers : ℕ) (a : Args) (s : SeqData) :
    ((processSeq numLayers a s).isOk = true ↔ s.label.count ' ' = 1) ∧
    (∀ idPart labelPart, idPart.count ' ' = 0 → labelPart.count ' ' = 0 →
      s.label = idPart ++ ' ' :: labelPart →
      stemOf (processSeq numLayers a s) = idPart ++ '_' :: labelPart) := by
  constructor
  · have hlen := length_splitOnChar ' ' s.label
    unfold processSeq
    rcases hsp : splitOnChar ' ' s.label with _ | ⟨g, _ | ⟨g2, _ | ⟨g3, gs⟩⟩⟩ <;>
      rw [hsp] at hlen
    · exact absurd hsp (splitOnChar_ne_nil _ _)
    · simp only [List.length_cons, List.length_nil] at hlen
      constructor
      · intro hok
        simp [Except.isOk, Except.toBool] at hok
      · omega
    · simp only [List.length_cons, List.length_nil] at hlen
      constructor
      · intro _
        omega
      · intro _
        rfl
    · simp only [List.length_cons] at hlen
      constructor
      · intro hok
        simp [Except.isOk, Except.toBool] at hok
      · omega
  · intro idPart labelPart h1 h2 h3
    have hsp : splitOnChar ' ' s.label = [idPart, labelPart] := by
      rw [h3, splitOnChar_append ' ' idPart labelPart h1,
        splitOnChar_of_count_eq_zero ' ' labelPart h2]
    unfold processSeq
    rw [hsp]
    rfl

/-- C9: a kind's entry is present in the result bundle exactly when that kind
was requested. -/
theorem bundle_kinds_spec (numLayers : ℕ) (a : Args) (s : SeqData) (r : Result)
    (hok : processSeq numLayers a s = .ok r) :
    (r.representations.isSome = true ↔ a.incl.per_tok = true) ∧
    (r.avg_per_tok.isSome = true ↔ a.incl.avg_per_tok = true) ∧
    (r.mean_representations.isSome = true ↔ a.incl.mean = true) ∧
    (r.bos_representations.isSome = true ↔ a.incl.bos = true) ∧
    (r.contacts.isSome = true ↔ a.incl.contacts = true) := by
  obtain ⟨h1, h2, h3, h4, h5⟩ := processSeq_ok_fields numLayers a s r hok
  rw [h1, h2, h3, h4, h5]
  refine ⟨?_, ?_, ?_, ?_, ?_⟩
  · cases hb : a.incl.per_tok <;> simp [hb]
  · cases hb : a.incl.avg_per_tok <;> simp [hb]
  · cases hb : a.incl.mean <;> simp [hb]
  · cases hb : a.incl.bos <;> simp [hb]
  · cases hb : a.incl.contacts <;> simp [hb]

/-- C1: when per_tok is requested, the bundle's per_tok entry holds, for each
requested layer, the slice of that sequence's activation row over positions
`[1, t_i]` (marker position 0 excluded), and — whenever the padded row is long
enough to cover the truncated window, as the batch converter guarantees — its
position-axis length is `min(truncation length, true length)`. -/
theorem per_tok_spec (numLayers : ℕ) (a : Args) (s : SeqData) (r : Result)
    (hinc : a.incl.per_tok = true)
    (hok : processSeq numLayers a s = .ok r) :
    r.representations = some ((reprKeys numLayers a).map
        (fun l => (l, perTokSlice (s.rows l) (truncLenOf a s)))) ∧
    (∀ i ∈ a.repr_layers,
      (r.representations.getD []).lookup (resolveLayer numLayers i)
        = some (perTokSlice (s.rows (resolveLayer numLayers i)) (truncLenOf a s))) ∧
    (∀ l, truncLenOf a s + 1 ≤ (s.rows l).length →
      (perTokSlice (s.rows l) (truncLenOf a s)).length
        = min a.truncation_seq_length s.str.length) := by
  have h1 := (processSeq_ok_fields numLayers a s r hok).1
  rw [hinc, if_pos rfl] at h1
  refine ⟨h1, ?_, ?_⟩
  · intro i hi
    rw [h1]
    have hmem : resolveLayer numLayers i ∈ reprKeys numLayers a := by
      rw [reprKeys, List.mem_dedup, resolvedLayers]
      exact List.mem_map.mpr ⟨i, hi, rfl⟩
    simpa using lookup_map_key (fun l => perTokSlice (s.rows l) (truncLenOf a s))
      (reprKeys numLayers a) (resolveLayer numLayers i) hmem
  · intro l hl
    rw [perTokSlice_length (s.rows l) (truncLenOf a s) hl]
    rfl

/-- C5: when mean is requested, the bundle's mean entry holds, for each
requested layer, the position-axis average of that layer's per_tok slice; at
truncated length 1 the mean equals the slice's single entry `per_tok[0]`. -/
theorem mean_spec (numLayers : ℕ) (a : Args) (s : SeqData) (r : Result)
    (hinc : a.incl.mean = true)
    (hok : processSeq numLayers a s = .ok r) :
    r.mean_representations = some ((reprKeys numLayers a).map
        (fun l => (l, posMean (perTokSlice (s.rows l) (truncLenOf a s))))) ∧
    (truncLenOf a s = 1 → ∀ l, 2 ≤ (s.rows l).length →
      posMean (perTokSlice (s.rows l) (truncLenOf a s))
        = (perTokSlice (s.rows l) (truncLenOf a s)).getD 0 (fun _ => 0)) := by
  have h3 := (processSeq_ok_fields numLayers a s r hok).2.2.1
  rw [hinc, if_pos rfl] at h3
  refine ⟨h3, ?_⟩
  intro ht l hl
  rw [ht]
  obtain ⟨x, xs, hx⟩ : ∃ x xs, (s.rows l).drop 1 = x :: xs := by
    apply List.exists_cons_of_ne_nil
    intro hnil
    have := congrArg List.length hnil
    simp at this
    omega
  have hslice : perTokSlice (s.rows l) 1 = [x] := by
    rw [perTokSlice, hx]
    rfl
  rw [hslice]
  funext j
  simp [posMean]

/-- C6: when contacts are requested, the bundle's contact entry is the
submatrix of the sequence's contact map over `[0, t_i) × [0, t_i)`; when the
stored map covers the window it has shape exactly `(t_i, t_i)`, and with no
truncation it is the full content-only contact map. -/
theorem contacts_spec (numLayers : ℕ) (a : Args) (s : SeqData) (r : Result)
    (hinc : a.incl.contacts = true)
    (hok : processSeq numLayers a s = .ok r) :
    r.contacts = some (subContacts s.cmap (truncLenOf a s)) ∧
    (truncLenOf a s ≤ s.cmap.length →
      (subContacts s.cmap (truncLenOf a s)).length = truncLenOf a s) ∧
    (∀ row ∈ s.cmap, truncLenOf a s ≤ row.length →
      (row.take (truncLenOf a s)).length = truncLenOf a s) ∧
    (truncLenOf a s = s.str.length →
      subContacts s.cmap (truncLenOf a s) = contentOnlyMap s.cmap s.str.length) := by
  have h5 := (processSeq_ok_fields numLayers a s r hok).2.2.2.2
  rw [hinc, if_pos rfl] at h5
  refine ⟨h5, ?_, ?_, ?_⟩
  · intro hlen
    simp [subContacts]
    omega
  · intro row _ hlen
    simp [List.length_take]
    omega
  · intro ht
    rw [ht]
    rfl

/-- C7: when bos is requested, the bundle's bos entry is, for each requested
layer, the single-position slice at index 0 of the sequence's activation row,
and it is identical across two runs that differ only in the configured
truncation length. -/
theorem bos_spec (numLayers : ℕ) (a : Args) (t1 t2 : ℕ) (s : SeqData) (r1 r2 : Result)
    (hinc : a.incl.bos = true)
    (h1 : processSeq numLayers { a with truncation_seq_length := t1 } s = .ok r1)
    (h2 : processSeq numLayers { a with truncation_seq_length := t2 } s = .ok r2) :
    r1.bos_representations = some ((reprKeys numLayers a).map
        (fun l => (l, (s.rows l).getD 0 (fun _ => 0)))) ∧
    r1.bos_representations = r2.bos_representations := by
  have hb1 := (processSeq_ok_fields numLayers { a with truncation_seq_length := t1 } s r1 h1).2.2.2.1
  have hb2 := (processSeq_ok_fields numLayers { a with truncation_seq_length := t2 } s r2 h2).2.2.2.1
  rw [show ({ a with truncation_seq_length := t1 } : Args).incl = a.incl from rfl, hinc,
    if_pos rfl] at hb1
  rw [show ({ a with truncation_seq_length := t2 } : Args).incl = a.incl from rfl, hinc,
    if_pos rfl] at hb2
  refine ⟨hb1, ?_⟩
  rw [hb1, hb2]
  rfl

theorem stackSum_singleton (sl : List Fvec) :
    (stackSum [sl]).map (fun v => fun j => v j / (1 : ℚ)) = sl := by
  unfold stackSum
  rw [List.map_map]
  apply List.ext_getElem
  · simp [List.headI]
  · intro n h1 h2
    rw [List.getElem_map, List.getElem_range]
    funext j
    simp only [Function.comp, List.map_cons, List.map_nil, List.sum_cons, List.sum_nil,
      add_zero, div_one]
    rw [List.getD_eq_getElem _ _ h2]

/-- C2 (amended): when avg_per_tok is requested and the resolved layer
indices are pairwise distinct, the single resulting array is the elementwise
mean over the requested layers of the sequence's per_tok slices; with exactly
one requested layer it equals that layer's per_tok slice. -/
theorem avg_per_tok_amended (numLayers : ℕ) (a : Args) (s : SeqData) (r : Result)
    (hinc : a.incl.avg_per_tok = true)
    (hnd : (resolvedLayers numLayers a).Nodup)
    (hok : processSeq numLayers a s = .ok r) :
    r.avg_per_tok = some (specAvgPerTok ((resolvedLayers numLayers a).map
        (fun l => perTokSlice (s.rows l) (truncLenOf a s)))) ∧
    (∀ i : ℤ, a.repr_layers = [i] →
      r.avg_per_tok = some (perTokSlice (s.rows (resolveLayer numLayers i)) (truncLenOf a s))) := by
  have hb := (processSeq_ok_fields numLayers a s r hok).2.1
  rw [hinc, if_pos rfl] at hb
  constructor
  · rw [hb, reprKeys, hnd.dedup]
    congr 1
    unfold stackSum specAvgPerTok
    rw [List.map_map]
    apply List.map_congr_left
    intro k _
    funext j
    simp only [Function.comp_apply]
    rw [List.length_map]
  · intro i hi
    have hrls : resolvedLayers numLayers a = [resolveLayer numLayers i] := by
      simp [resolvedLayers, hi]
    rw [hb, reprKeys, hrls]
    rw [(List.nodup_singleton (resolveLayer numLayers i)).dedup]
    simp only [List.map_cons, List.map_nil, List.length_cons, List.length_nil, zero_add,
      Nat.cast_one]
    rw [stackSum_singleton]

/-- C2 (counterexample): with a 2-layer model and requested layers `[-1, 2]`
— two distinct requested indices that resolve to the same layer — the code's
avg_per_tok array is the per_tok slice divided by 2, not the elementwise mean
over the requested layers (which would be the slice itself). -/
theorem avg_per_tok_counterexample :
    ¬ (resCex.avg_per_tok = some (specAvgPerTok ((resolvedLayers 2 argsCex).map
        (fun l => perTokSlice (seqCex.rows l) (truncLenOf argsCex seqCex))))) := by
  intro h
  have hfield := (processSeq_ok_fields 2 argsCex seqCex resCex rfl).2.1
  rw [show argsCex.incl.avg_per_tok = true from rfl, if_pos rfl] at hfield
  rw [hfield] at h
  have h2 := Option.some.inj h
  have h3 : (((stackSum ((reprKeys 2 argsCex).map
        (fun l => perTokSlice (seqCex.rows l) (truncLenOf argsCex seqCex)))).map
        (fun v => fun j => v j / (((resolvedLayers 2 argsCex).length : ℕ) : ℚ))).getD 0
          (fun _ => (0:ℚ))) 0
      = ((specAvgPerTok ((resolvedLayers 2 argsCex).map
        (fun l => perTokSlice (seqCex.rows l) (truncLenOf argsCex seqCex)))).getD 0
          (fun _ => (0:ℚ))) 0 :=
    congrArg (fun l => (l.getD 0 (fun _ => (0:ℚ))) 0) h2
  rw [show ((reprKeys 2 argsCex).map
        (fun l => perTokSlice (seqCex.rows l) (truncLenOf argsCex seqCex))) = [[fv1]] from rfl,
      show ((resolvedLayers 2 argsCex).map
        (fun l => perTokSlice (seqCex.rows l) (truncLenOf argsCex seqCex))) = [[fv1], [fv1]] from rfl,
      show (resolvedLayers 2 argsCex).length = 2 from rfl] at h3
  simp only [stackSum, specAvgPerTok, List.headI, List.length_cons, List.length_nil,
    List.range_succ, List.range_zero, List.nil_append, List.map_cons, List.map_nil,
    List.map_append, List.sum_cons, List.sum_nil, List.getD_cons_zero, fv1,
    add_zero, zero_add] at h3
  norm_num at h3

theorem processFrom_eq_filter (numLayers : ℕ) (a : Args) (lo hi : ℕ) :
    ∀ (batches : List (List SeqData)) (k : ℕ),
      (∀ b ∈ batches, (processSeqs numLayers a b).2 = none) →
      processFrom numLayers a lo hi k batches
        = ((((batches.enumFrom k).filter (fun p => decide (lo ≤ p.1 ∧ p.1 < hi))).map
            (fun p => (processSeqs numLayers a p.2).1)).join, none) := by
  intro batches
  induction batches with
  | nil => intro k _; rfl
  | cons b rest ih =>
    intro k hok
    have hb := hok b (List.mem_cons_self b rest)
    have hrest : ∀ x ∈ rest, (processSeqs numLayers a x).2 = none :=
      fun x hx => hok x (List.mem_cons_of_mem b hx)
    unfold processFrom
    rcases hps : processSeqs numLayers a b with ⟨rs, e⟩
    rw [hps] at hb
    simp only at hb
    subst hb
    by_cases hw : lo ≤ k ∧ k < hi
    · rw [if_pos hw, ih (k + 1) hrest]
      have hd : decide (lo ≤ k ∧ k < hi) = true := by simpa using hw
      simp only [List.enumFrom_cons, List.filter_cons, hd, if_pos, List.map_cons,
        List.join_cons, hps]
    · rw [if_neg hw, ih (k + 1) hrest]
      have hd : decide (lo ≤ k ∧ k < hi) = false := by simpa using hw
      simp only [List.enumFrom_cons, List.filter_cons, hd]
      simp

/-- C3: with the batch-index window `[lo, hi)`, a batch with index `b` is
processed exactly when `lo ≤ b < hi`: on an error-free run the written
artifacts are precisely the concatenation, in order, of the per-sequence
results of the in-window batches, and batches outside the window contribute
nothing. -/
theorem batch_window_spec (numLayers : ℕ) (a : Args) (lo hi : ℕ)
    (batches : List (List SeqData))
    (hv : a.repr_layers.all
      (fun i => decide (-((numLayers : ℤ) + 1) ≤ i ∧ i ≤ (numLayers : ℤ))) = true)
    (hok : ∀ b ∈ batches, (processSeqs numLayers a b).2 = none) :
    runWindow numLayers a lo hi batches
      = ((((batches.enum.filter (fun p => decide (lo ≤ p.1 ∧ p.1 < hi))).map
          (fun p => (processSeqs numLayers a p.2).1)).join), none) := by
  rw [runWindow, if_pos hv]
  exact processFrom_eq_filter numLayers a lo hi batches 0 hok

/-- C8: if any requested layer index lies outside `[-(numLayers+1), numLayers]`,
the run aborts with the assertion error before any batch is processed: no
artifact is written for any sequence. -/
theorem layer_range_validation (numLayers : ℕ) (a : Args)
    (batches : List (List SeqData)) (i : ℤ)
    (hm : i ∈ a.repr_layers)
    (hout : i < -((numLayers : ℤ) + 1) ∨ (numLayers : ℤ) < i) :
    runExtract numLayers a batches = ([], some "AssertionError") := by
  have hall : ¬ (a.repr_layers.all
      (fun j => decide (-((numLayers : ℤ) + 1) ≤ j ∧ j ≤ (numLayers : ℤ))) = true) := by
    intro hall
    have hi := List.all_eq_true.mp hall i hm
    rw [decide_eq_true_eq] at hi
    omega
  rw [runExtract, runWindow, if_neg hall]

/-- Witness for `per_tok_spec` on `argsW`/`seqW`. -/
theorem per_tok_spec_witness :
    resW.representations = some ((reprKeys 1 argsW).map
        (fun l => (l, perTokSlice (seqW.rows l) (truncLenOf argsW seqW)))) ∧
    (perTokSlice (seqW.rows 1) (truncLenOf argsW seqW)).length
        = min argsW.truncation_seq_length seqW.str.length := by
  have h := per_tok_spec 1 argsW seqW resW rfl rfl
  exact ⟨h.1, h.2.2 1 (by decide)⟩

/-- Witness for `avg_per_tok_amended` on `argsW`/`seqW`. -/
theorem avg_per_tok_amended_witness :
    resW.avg_per_tok = some (specAvgPerTok ((resolvedLayers 1 argsW).map
        (fun l => perTokSlice (seqW.rows l) (truncLenOf argsW seqW)))) ∧
    resW.avg_per_tok
      = some (perTokSlice (seqW.rows (resolveLayer 1 (-1))) (truncLenOf argsW seqW)) := by
  have h := avg_per_tok_amended 1 argsW seqW resW rfl (by decide) rfl
  exact ⟨h.1, h.2 (-1) rfl⟩

/-- Witness for `batch_window_spec`: window `[0, 1)` on a 3-batch run keeps
only batch 0's artifacts. -/
theorem batch_window_spec_witness :
    runWindow 1 argsW 0 1 batchesW = ((processSeqs 1 argsW [seqW]).1, none) := by
  rw [batch_window_spec 1 argsW 0 1 batchesW (by decide) (by decide)]
  rfl

/-- Witness for `mean_spec` on `argsW`/`seqW`. -/
theorem mean_spec_witness :
    resW.mean_representations = some ((reprKeys 1 argsW).map
        (fun l => (l, posMean (perTokSlice (seqW.rows l) (truncLenOf argsW seqW))))) ∧
    posMean (perTokSlice (seqW.rows 1) (truncLenOf argsW seqW))
      = (perTokSlice (seqW.rows 1) (truncLenOf argsW seqW)).getD 0 (fun _ => 0) := by
  have h := mean_spec 1 argsW seqW resW rfl rfl
  exact ⟨h.1, h.2 rfl 1 (by decide)⟩

/-- Witness for `contacts_spec` on `argsW`/`seqW` (no truncation: `t = 1 =`
the true length). -/
theorem contacts_spec_witness :
    resW.contacts = some (subContacts seqW.cmap (truncLenOf argsW seqW)) ∧
    (subContacts seqW.cmap (truncLenOf argsW seqW)).length = truncLenOf argsW seqW ∧
    subContacts seqW.cmap (truncLenOf argsW seqW)
      = contentOnlyMap seqW.cmap seqW.str.length := by
  have h := contacts_spec 1 argsW seqW resW rfl rfl
  exact ⟨h.1, h.2.1 (by decide), h.2.2.2 rfl⟩

/-- Witness for `bos_spec`: truncation lengths 2 and 5 give identical bos
entries on `seqW`. -/
theorem bos_spec_witness :
    resW.bos_representations = some ((reprKeys 1 argsW).map
        (fun l => (l, (seqW.rows l).getD 0 (fun _ => 0)))) ∧
    resW.bos_representations = resW5.bos_representations := by
  exact bos_spec 1 argsW 2 5 seqW resW resW5 rfl rfl rfl

/-- Witness for `layer_range_validation`: requested layer 5 on a 1-layer
model aborts with no artifacts. -/
theorem layer_range_validation_witness :
    runExtract 1 argsBad [] = ([], some "AssertionError") :=
  layer_range_validation 1 argsBad [] 5 (by decide) (by decide)

/-- Witness for `bundle_kinds_spec`: all five kinds requested, all five
entries present. -/
theorem bundle_kinds_spec_witness :
    resW.representations.isSome = true ∧
    resW.avg_per_tok.isSome = true ∧
    resW.mean_representations.isSome = true ∧
    resW.bos_representations.isSome = true ∧
    resW.contacts.isSome = true := by
  have h := bundle_kinds_spec 1 argsW seqW resW rfl
  exact ⟨h.1.mpr rfl, h.2.1.mpr rfl, h.2.2.1.mpr rfl, h.2.2.2.1.mpr rfl, h.2.2.2.2.mpr rfl⟩

/-- Witness for `label_split_spec` on the label `"p 1"`. -/
theorem label_split_spec_witness :
    (processSeq 1 argsW seqW).isOk = true ∧
    stemOf (processSeq 1 argsW seqW) = ['p', '_', '1'] :=
  ⟨(label_split_spec 1 argsW seqW).1.mpr (by decide),
   (label_split_spec 1 argsW seqW).2 ['p'] ['1'] (by decide) (by decide) rfl⟩
